import Mathlib

/-!
Verification development for the geosplot choropleth viewer (src/App.tsx).

The program is embedded shallowly:
* JavaScript numbers are modelled by `JsNum`: NaN, +Infinity, -Infinity, or a
  finite value carried as an exact rational (the operations the program uses -
  `parseFloat`, `Math.min`/`Math.max`, and the linear normalisation inside
  d3's `scaleSequential` - are exact at every point the theorems touch, so no
  rounding model is needed; the sign of zero is collapsed into `0`, which is
  observationally equivalent here because the only consumer of a possible
  negative zero is the `k10 === 0` test, and `-0 === 0` is true in JS).
* Finite-value arithmetic is written with `mkRat`/`Rat.divInt` (`ratSub`,
  `ratMul`, `ratDiv`) so that concrete instances evaluate inside the kernel;
  the lemmas `ratSub_eq`, `ratMul_eq`, `ratDiv_eq` prove these are exactly
  rational subtraction, multiplication and division.
* A JS object produced by `Object.fromEntries` is modelled by its entry list in
  row order; own-property reads take the last binding (last write wins).  The
  object inherits from `Object.prototype`, so the full read `features[k]`
  (`objRead`) falls through to the inherited member for the prototype's
  property names (`toString`, `constructor`, ...) before yielding undefined.
* GeoJSON documents are a structure with a `type` discriminant and a feature
  list; feature property bags are association lists of `PropVal`.
-/

/-- Exact rational subtraction, in a kernel-evaluable form. -/
def ratSub (a b : Rat) : Rat := mkRat (a.num * b.den - b.num * a.den) (a.den * b.den)

/-- Exact rational multiplication, in a kernel-evaluable form. -/
def ratMul (a b : Rat) : Rat := mkRat (a.num * b.num) (a.den * b.den)

/-- Exact rational division, in a kernel-evaluable form. -/
def ratDiv (a b : Rat) : Rat := Rat.divInt (a.num * b.den) (b.num * a.den)

inductive JsNum where
  | nan : JsNum
  | inf : JsNum
  | ninf : JsNum
  | fin : Rat → JsNum
deriving DecidableEq, Repr

/-- JS `isNaN` on a number (the program only applies it to numbers). -/
def JsNum.isNaN : JsNum → Bool
  | .nan => true
  | _ => false

/-- JS strict equality `===` restricted to numbers: `NaN === x` is false. -/
def jsStrictEq : JsNum → JsNum → Bool
  | .nan, _ => false
  | _, .nan => false
  | .inf, .inf => true
  | .ninf, .ninf => true
  | .fin a, .fin b => a = b
  | _, _ => false

/-- IEEE-style subtraction on JS numbers. -/
def jsSub : JsNum → JsNum → JsNum
  | .nan, _ => .nan
  | _, .nan => .nan
  | .inf, .inf => .nan
  | .inf, _ => .inf
  | .ninf, .ninf => .nan
  | .ninf, _ => .ninf
  | .fin _, .inf => .ninf
  | .fin _, .ninf => .inf
  | .fin a, .fin b => .fin (ratSub a b)

/-- IEEE-style multiplication on JS numbers. -/
def jsMul : JsNum → JsNum → JsNum
  | .nan, _ => .nan
  | _, .nan => .nan
  | .inf, .inf => .inf
  | .inf, .ninf => .ninf
  | .ninf, .inf => .ninf
  | .ninf, .ninf => .inf
  | .inf, .fin b => if b = 0 then .nan else if b < 0 then .ninf else .inf
  | .fin a, .inf => if a = 0 then .nan else if a < 0 then .ninf else .inf
  | .ninf, .fin b => if b = 0 then .nan else if b < 0 then .inf else .ninf
  | .fin a, .ninf => if a = 0 then .nan else if a < 0 then .inf else .ninf
  | .fin a, .fin b => .fin (ratMul a b)

/-- IEEE-style division on JS numbers (sign of zero collapsed). -/
def jsDiv : JsNum → JsNum → JsNum
  | .nan, _ => .nan
  | _, .nan => .nan
  | .inf, .inf => .nan
  | .inf, .ninf => .nan
  | .ninf, .inf => .nan
  | .ninf, .ninf => .nan
  | .inf, .fin b => if b < 0 then .ninf else .inf
  | .ninf, .fin b => if b < 0 then .inf else .ninf
  | .fin _, .inf => .fin 0
  | .fin _, .ninf => .fin 0
  | .fin a, .fin b =>
    if b = 0 then (if a = 0 then .nan else if a < 0 then .ninf else .inf)
    else .fin (ratDiv a b)

/-- IEEE-style `≤` as used by `Math.min`/`Math.max`: false whenever NaN is involved. -/
def jsLeb : JsNum → JsNum → Bool
  | .nan, _ => false
  | _, .nan => false
  | .ninf, _ => true
  | _, .ninf => false
  | _, .inf => true
  | .inf, _ => false
  | .fin a, .fin b => a ≤ b

/-- Binary `Math.min`: NaN-propagating minimum. -/
def jsMin (a b : JsNum) : JsNum :=
  if a.isNaN || b.isNaN then .nan else if jsLeb a b then a else b

/-- Binary `Math.max`: NaN-propagating maximum. -/
def jsMax (a b : JsNum) : JsNum :=
  if a.isNaN || b.isNaN then .nan else if jsLeb a b then b else a

/-- `Math.min(...l)`: fold of `jsMin` with `Math.min()` = `+Infinity` as the base. -/
def mathMin (l : List JsNum) : JsNum := l.foldl jsMin JsNum.inf

/-- `Math.max(...l)`: fold of `jsMax` with `Math.max()` = `-Infinity` as the base. -/
def mathMax (l : List JsNum) : JsNum := l.foldl jsMax JsNum.ninf

def startsWithChars : List Char → List Char → Bool
  | [], _ => true
  | _ :: _, [] => false
  | c :: cs, d :: ds => c = d && startsWithChars cs ds

def digitVal (c : Char) : Nat := c.toNat - 48

def natOfDigits (l : List Char) : Nat := l.foldl (fun n c => 10 * n + digitVal c) 0

/-- JS `parseFloat` on a string: skip leading whitespace, optional sign, then
the longest numeric literal (decimal digits, optional fraction, optional
exponent whose digit part contributes only when present) or `Infinity`; NaN
when no numeric literal starts the remainder.  The numeric value
sign * digits * 10 ^ (exponent - number of fraction digits) is held exactly
as a rational built with `mkRat`. -/
def parseFloat (s : String) : JsNum :=
  let cs0 := s.toList.dropWhile Char.isWhitespace
  let signed : Bool × List Char :=
    match cs0 with
    | '-' :: rest => (true, rest)
    | '+' :: rest => (false, rest)
    | _ => (false, cs0)
  let neg := signed.1
  let cs := signed.2
  if startsWithChars "Infinity".toList cs then
    if neg then JsNum.ninf else JsNum.inf
  else
    let intPart := cs.takeWhile Char.isDigit
    let cs1 := cs.dropWhile Char.isDigit
    let fracSplit : List Char × List Char :=
      match cs1 with
      | '.' :: rest => (rest.takeWhile Char.isDigit, rest.dropWhile Char.isDigit)
      | _ => ([], cs1)
    let fracPart := fracSplit.1
    let cs2 := fracSplit.2
    if intPart.isEmpty && fracPart.isEmpty then JsNum.nan
    else
      let digits : Nat := natOfDigits (intPart ++ fracPart)
      let exp : Int :=
        match cs2 with
        | e :: rest =>
          if e = 'e' || e = 'E' then
            match rest with
            | '-' :: ds => -(natOfDigits (ds.takeWhile Char.isDigit) : Int)
            | '+' :: ds => (natOfDigits (ds.takeWhile Char.isDigit) : Int)
            | ds => (natOfDigits (ds.takeWhile Char.isDigit) : Int)
          else 0
        | [] => 0
      let e10 : Int := exp - fracPart.length
      let signedNum : Int := if neg then -(digits : Int) else (digits : Int)
      if 0 ≤ e10 then JsNum.fin (mkRat (signedNum * ((10 : Nat) ^ e10.toNat : Nat)) 1)
      else JsNum.fin (mkRat signedNum ((10 : Nat) ^ (-e10).toNat))

/-- The Feature Table: the entries handed to `Object.fromEntries`, in row
order; reads take the last binding for a key, as the resulting object does. -/
abbrev FeatureTable := List (String × JsNum)

/-- The own-property part of the read `features[k]`: the key's last binding
among the object's own entries, `none` when no row produced the key.  The full
JS read, including the `Object.prototype` fallback, is `objRead` below. -/
def objGet : FeatureTable → String → Option JsNum
  | [], _ => none
  | (k1, v) :: rest, k =>
    match objGet rest k with
    | some w => some w
    | none => if k1 = k then some v else none

/-- The object's own keys (each key once). -/
def objKeys (t : FeatureTable) : List String := (t.map Prod.fst).dedup

/-- `Object.values(features)`: one value per key, the last written one. -/
def objValues (t : FeatureTable) : List JsNum :=
  (objKeys t).map (fun k => (objGet t k).getD JsNum.nan)

/-- The property names of `Object.prototype`, from which the object built by
`Object.fromEntries` inherits: reading one of these keys on the table yields
the inherited member (a function, or the `__proto__` accessor's object), not
`undefined`. -/
def protoKeys : List String :=
  ["constructor", "hasOwnProperty", "isPrototypeOf", "propertyIsEnumerable",
   "toLocaleString", "toString", "valueOf", "__proto__",
   "__defineGetter__", "__defineSetter__", "__lookupGetter__", "__lookupSetter__"]

/-- The possible results of the full JS read `features[k]`: an own entry
(always a number in this table), an inherited `Object.prototype` member
(tagged by its name), or `undefined`. -/
inductive JsLookup where
  | undef : JsLookup
  | num : JsNum → JsLookup
  | protoMember : String → JsLookup
deriving DecidableEq, Repr

/-- The full JS property read `features[k]`: the own entry when a row produced
the key, else the inherited `Object.prototype` member when `k` is one of its
property names, else `undefined`. -/
def objRead (t : FeatureTable) (k : String) : JsLookup :=
  match objGet t k with
  | some v => JsLookup.num v
  | none => if k ∈ protoKeys then JsLookup.protoMember k else JsLookup.undef

/-- JS `ToNumber` of a read result, as d3's scale applies it via `+x`:
numbers pass through; an inherited function or object coerces to NaN, as does
`undefined`. -/
def jsToNumber : JsLookup → JsNum
  | .num v => v
  | .protoMember _ => JsNum.nan
  | .undef => JsNum.nan

/-- `row[0]!` used as a property key: a missing field 0 is `undefined`, which
property-key coercion turns into the string `"undefined"`. -/
def keyOfRow (row : List String) : String :=
  match row.head? with
  | some s => s
  | none => "undefined"

/-- `parseFloat(row[1]!)`: a missing field 1 is `undefined`, which `parseFloat`
coerces to the non-numeric string `"undefined"`, hence NaN. -/
def fieldFloat (row : List String) : JsNum :=
  match row.get? 1 with
  | some s => parseFloat s
  | none => JsNum.nan

/-- The features memo body: `rows.map(row => [row[0]!, parseFloat(row[1]!)])`
handed to `Object.fromEntries`. -/
def buildFeatureTable (rows : List (List String)) : FeatureTable :=
  rows.map (fun r => (keyOfRow r, fieldFloat r))

/-- `vals = Object.values(features).filter((v) => !isNaN(v))`. -/
def domainVals (t : FeatureTable) : List JsNum :=
  (objValues t).filter (fun v => ¬ v.isNaN)

/-- `const min = Math.min(...vals)`. -/
def domainMin (t : FeatureTable) : JsNum := mathMin (domainVals t)

/-- `const max = Math.max(...vals)`. -/
def domainMax (t : FeatureTable) : JsNum := mathMax (domainVals t)

/-- The state of a d3 sequential scale after `.domain([d0, d1])`: the domain
ends, the precomputed factor `k10 = t0 === t1 ? 0 : 1 / (t1 - t0)`, and the
interpolator. -/
structure SeqScale where
  t0 : JsNum
  t1 : JsNum
  k10 : JsNum
  interpolator : JsNum → String

/-- `scaleSequential(I).domain([d0, d1])` (the scale's transform is the
identity, its `unknown` is left at `undefined`, and clamping is off). -/
def scaleSequentialDomain (I : JsNum → String) (d0 d1 : JsNum) : SeqScale :=
  { t0 := d0
    t1 := d1
    k10 := if jsStrictEq d0 d1 then JsNum.fin 0 else jsDiv (JsNum.fin 1) (jsSub d1 d0)
    interpolator := I }

/-- Calling the sequential scale:
`isNaN(x) ? unknown : interpolator(k10 === 0 ? 0.5 : (x - t0) * k10)`;
`none` models the default `unknown`, i.e. `undefined`. -/
def SeqScale.applyScale (s : SeqScale) (x : JsNum) : Option String :=
  if x.isNaN then none
  else if jsStrictEq s.k10 (JsNum.fin 0) then some (s.interpolator (JsNum.fin (mkRat 1 2)))
  else some (s.interpolator (jsMul (jsSub x s.t0) s.k10))

/-- The scale built by `assignFeatures`:
`scaleSequential(interpolateFun).domain(invertScale ? [max, min] : [min, max])`. -/
def resolveScale (I : JsNum → String) (t : FeatureTable) (invertScale : Bool) : SeqScale :=
  if invertScale then scaleSequentialDomain I (domainMax t) (domainMin t)
  else scaleSequentialDomain I (domainMin t) (domainMax t)

/-- A JSON-ish value stored in a feature's property bag.  `pundefined` is the
JS value `undefined` (also what reading an absent key yields); `pfun m` is the
`Object.prototype` member named `m`, which the enricher stores as `value` when
a feature's lookup key is a prototype property name - no parsed document can
contain it, and the program never reads an enriched document back. -/
inductive PropVal where
  | pstr : String → PropVal
  | pnum : JsNum → PropVal
  | pbool : Bool → PropVal
  | pnull : PropVal
  | pundefined : PropVal
  | pfun : String → PropVal
deriving DecidableEq, Repr

/-- A feature's property bag: a JS object, keys unique in any object the
program builds or parses. -/
abbrev Props := List (String × PropVal)

/-- Reading a property of the bag; absent keys read as `undefined`. -/
def propGet : Props → String → PropVal
  | [], _ => PropVal.pundefined
  | (k1, v) :: rest, k => if k1 = k then v else propGet rest k

def propHas (ps : Props) (k : String) : Bool := ps.any (fun p => p.1 = k)

/-- The effect of `{ ...ps, k: v }` on the bag: overwrite the key's binding in
place when the key exists, append the binding otherwise (JS objects have
unique keys, so replacing the first occurrence is the object semantics). -/
def propSet : Props → String → PropVal → Props
  | [], k, v => [(k, v)]
  | p :: ps, k, v => if p.1 = k then (k, v) :: ps else p :: propSet ps k v

/-- JS truthiness of a property value (`""`, `0`, `NaN`, `null`, `undefined`
and `false` are falsy). -/
def truthy : PropVal → Bool
  | .pstr s => s ≠ ""
  | .pnum n =>
    match n with
    | .fin q => q ≠ 0
    | .nan => false
    | _ => true
  | .pbool b => b
  | .pnull => false
  | .pundefined => false
  | .pfun _ => true

/-- JS number-to-string coercion as far as the program can observe it: the
special values and integers render as in JS; a non-integral rational (which
only a numeric `name`/`code` property could supply) is rendered from its
reduced fraction. -/
def jsNumToString : JsNum → String
  | .nan => "NaN"
  | .inf => "Infinity"
  | .ninf => "-Infinity"
  | .fin q => if q.den = 1 then toString q.num else toString q.num ++ "/" ++ toString q.den

/-- JS property-key coercion `ToPropertyKey`: the string form of the value;
in particular `undefined` becomes the string "undefined". -/
def toKeyString : PropVal → String
  | .pstr s => s
  | .pnum n => jsNumToString n
  | .pbool b => if b then "true" else "false"
  | .pnull => "null"
  | .pundefined => "undefined"
  | .pfun m => "function " ++ m ++ "()"

structure GeoFeature where
  ftype : String
  properties : Option Props
  geometry : PropVal
deriving DecidableEq, Repr

/-- A parsed GeoJSON document: the `type` discriminant and (when the document
has one) its feature list. -/
structure GeoJson where
  gtype : String
  features : List GeoFeature
deriving DecidableEq, Repr

/-- `geo.type === "FeatureCollection"`. -/
def isFeatureCollection (geo : GeoJson) : Bool := geo.gtype = "FeatureCollection"

/-- The index expression
`geoFeature.properties?.name || geoFeature.properties?.code`, coerced to a
property key: optional chaining on a null/undefined bag gives `undefined`,
`||` keeps the first truthy operand, and the final value is coerced by
`ToPropertyKey` (so two absent properties yield the key "undefined"). -/
def lookupIndex (props : Option Props) : String :=
  let nameV := match props with | some ps => propGet ps "name" | none => PropVal.pundefined
  let codeV := match props with | some ps => propGet ps "code" | none => PropVal.pundefined
  toKeyString (if truthy nameV then nameV else codeV)

/-- The `color` property written by the enricher: the scale's string, or
`undefined` when the scale returned its `unknown`. -/
def colorToProp : Option String → PropVal
  | some s => .pstr s
  | none => .pundefined

/-- One loop iteration of `assignFeatures`: read `features[key]`; the
`value === undefined` guard fires - leaving the feature alone - only when the
read yields `undefined`, i.e. the key is neither an own entry nor an
`Object.prototype` property name.  Otherwise the property bag is rebuilt as
`{ ...geoFeature.properties, value, color }`: for an own entry `value` is the
stored number and `color` the scale's string; for an inherited prototype
member `value` is that member and `color` is the scale's `unknown`
(`undefined`), since the scale coerces its input with `+x` (NaN for a
function or object). -/
def enrichFeature (scale : SeqScale) (t : FeatureTable) (f : GeoFeature) : GeoFeature :=
  match objRead t (lookupIndex f.properties) with
  | .undef => f
  | .num v =>
    let color := scale.applyScale v
    let newProps :=
      propSet (propSet (f.properties.getD []) "value" (.pnum v)) "color" (colorToProp color)
    { f with properties := some newProps }
  | .protoMember m =>
    let color := scale.applyScale (jsToNumber (JsLookup.protoMember m))
    let newProps :=
      propSet (propSet (f.properties.getD []) "value" (.pfun m)) "color" (colorToProp color)
    { f with properties := some newProps }

/-- `assignFeatures(geo, features, interpolateFun, invertScale)`: the early
return on a non-collection, the domain computation, the scale, and the
feature loop; the in-place mutation is modelled by returning the updated
document. -/
def assignFeatures (geo : GeoJson) (t : FeatureTable) (I : JsNum → String)
    (invertScale : Bool) : GeoJson :=
  if isFeatureCollection geo then
    let scale := resolveScale I t invertScale
    { geo with features := geo.features.map (enrichFeature scale t) }
  else geo

/-- The features memo: empty text short-circuits to `null`; otherwise the
table is built from the parsed rows (`parseCsv` stands for the external
papaparse call). -/
def featuresMemo (featureData : String) (parseCsv : String → List (List String)) :
    Option FeatureTable :=
  if featureData = "" then none
  else some (buildFeatureTable (parseCsv featureData))

structure GeoMemoResult where
  gen : Nat
  geo : Option GeoJson
  diagnostics : List String
deriving DecidableEq, Repr

/-- The geojson memo: empty text gives `[0, null]`; a parse failure is caught,
logged and gives `[0, null]`; otherwise the document (enriched when a Feature
Table exists) is returned with a fresh generation marker.  `jsonParse` stands
for the external `JSON.parse`, with `Except.error` modelling a thrown
exception, and `now` for `+new Date()`. -/
def geojsonMemo (geojsonString : String) (jsonParse : String → Except String GeoJson)
    (features : Option FeatureTable) (I : JsNum → String) (invertScale : Bool)
    (now : Nat) : GeoMemoResult :=
  if geojsonString = "" then { gen := 0, geo := none, diagnostics := [] }
  else
    match jsonParse geojsonString with
    | .error e =>
      { gen := 0, geo := none, diagnostics := ["Failed to parse GeoJSON data: " ++ e] }
    | .ok g =>
      let g2 := match features with
        | some t => assignFeatures g t I invertScale
        | none => g
      { gen := now, geo := some g2, diagnostics := [] }

/-- A concrete interpolator used by the concrete instances below: it
distinguishes the ramp positions 0, 1 and 1/2. -/
def demoI : JsNum → String :=
  fun x =>
    if jsStrictEq x (JsNum.fin 0) then "start"
    else if jsStrictEq x (JsNum.fin 1) then "end"
    else if jsStrictEq x (JsNum.fin (mkRat 1 2)) then "mid"
    else "other"

def demoTable : FeatureTable := [("A", JsNum.fin 0), ("B", JsNum.fin 10)]

def demoFeatureA : GeoFeature :=
  { ftype := "Feature", properties := some [("name", PropVal.pstr "A")],
    geometry := PropVal.pnull }

def demoFeatureLoose : GeoFeature :=
  { ftype := "Feature", properties := some [("other", PropVal.pstr "zz")],
    geometry := PropVal.pnull }

def demoGeo : GeoJson :=
  { gtype := "FeatureCollection", features := [demoFeatureA, demoFeatureLoose] }

/-- A concrete stand-in for `JSON.parse` used by the concrete instances:
one accepted document text, everything else throws. -/
def demoParse : String → Except String GeoJson :=
  fun s => if s = "ok" then Except.ok demoGeo else Except.error "SyntaxError"

/-- A feature carrying neither a `name` nor a `code` property. -/
def demoNoKeyFeature : GeoFeature :=
  { ftype := "Feature", properties := some [], geometry := PropVal.pnull }

def demoNoKeyGeo : GeoJson :=
  { gtype := "FeatureCollection", features := [demoNoKeyFeature] }

/-- A feature whose lookup key is an `Object.prototype` property name. -/
def demoProtoFeature : GeoFeature :=
  { ftype := "Feature", properties := some [("name", PropVal.pstr "toString")],
    geometry := PropVal.pnull }

def demoProtoGeo : GeoJson :=
  { gtype := "FeatureCollection", features := [demoProtoFeature] }

theorem ratSub_eq (a b : Rat) : ratSub a b = a - b := by
  have ha : (a.den : Rat) ≠ 0 := Nat.cast_ne_zero.mpr a.den_nz
  have hb : (b.den : Rat) ≠ 0 := Nat.cast_ne_zero.mpr b.den_nz
  unfold ratSub
  rw [Rat.mkRat_eq_div]
  push_cast
  conv_rhs => rw [← Rat.num_div_den a, ← Rat.num_div_den b]
  rw [div_sub_div _ _ ha hb]
  ring_nf

theorem ratMul_eq (a b : Rat) : ratMul a b = a * b := by
  unfold ratMul
  rw [Rat.mkRat_eq_div]
  push_cast
  conv_rhs => rw [← Rat.num_div_den a, ← Rat.num_div_den b]
  rw [div_mul_div_comm]

theorem ratDiv_eq (a b : Rat) : ratDiv a b = a / b := by
  have ha : (a.den : Rat) ≠ 0 := Nat.cast_ne_zero.mpr a.den_nz
  have hbd : (b.den : Rat) ≠ 0 := Nat.cast_ne_zero.mpr b.den_nz
  unfold ratDiv
  rcases eq_or_ne b 0 with rfl | hb
  · norm_num
  · have hbn : (b.num : Rat) ≠ 0 := Int.cast_ne_zero.mpr (Rat.num_ne_zero.mpr hb)
    rw [Rat.divInt_eq_div]
    push_cast
    rw [eq_div_iff hb, div_mul_eq_mul_div, div_eq_iff (mul_ne_zero hbn ha)]
    have h1 : (a.num : Rat) = a * a.den := by
      rw [← div_eq_iff ha]
      exact Rat.num_div_den a
    have h2 : (b.num : Rat) = b * b.den := by
      rw [← div_eq_iff hbd]
      exact Rat.num_div_den b
    rw [h1, h2]
    ring

theorem jsSub_fin (a b : Rat) : jsSub (JsNum.fin a) (JsNum.fin b) = JsNum.fin (a - b) := by
  simp [jsSub, ratSub_eq]

theorem jsMul_fin (a b : Rat) : jsMul (JsNum.fin a) (JsNum.fin b) = JsNum.fin (a * b) := by
  simp [jsMul, ratMul_eq]

theorem jsDiv_fin (a b : Rat) (h : b ≠ 0) :
    jsDiv (JsNum.fin a) (JsNum.fin b) = JsNum.fin (a / b) := by
  simp [jsDiv, h, ratDiv_eq]

theorem jsStrictEq_fin (a b : Rat) :
    jsStrictEq (JsNum.fin a) (JsNum.fin b) = decide (a = b) := rfl

theorem jsLeb_trans (a b c : JsNum) (h1 : jsLeb a b = true) (h2 : jsLeb b c = true) :
    jsLeb a c = true := by
  cases a <;> cases b <;> cases c <;> simp_all [jsLeb]
  exact le_trans h1 h2

theorem jsLeb_not_nan_left (a b : JsNum) (h : jsLeb a b = true) : a.isNaN = false := by
  cases a <;> cases b <;> simp_all [jsLeb, JsNum.isNaN]

theorem jsMin_eq_or (a b : JsNum) (ha : a.isNaN = false) (hb : b.isNaN = false) :
    jsMin a b = a ∨ jsMin a b = b := by
  unfold jsMin
  rw [ha, hb]
  simp only [Bool.or_self, Bool.false_eq_true, if_false]
  split
  · exact Or.inl rfl
  · exact Or.inr rfl

theorem jsLeb_refl (a : JsNum) (ha : a.isNaN = false) : jsLeb a a = true := by
  cases a <;> simp_all [jsLeb, JsNum.isNaN]

theorem jsLeb_of_not (a b : JsNum) (ha : a.isNaN = false) (hb : b.isNaN = false)
    (h : jsLeb a b = false) : jsLeb b a = true := by
  cases a <;> cases b <;> simp_all [jsLeb, JsNum.isNaN]
  exact le_of_lt h

theorem jsMin_not_nan (a b : JsNum) (ha : a.isNaN = false) (hb : b.isNaN = false) :
    (jsMin a b).isNaN = false := by
  rcases jsMin_eq_or a b ha hb with h | h <;> rw [h] <;> assumption

theorem jsMin_leb_left (a b : JsNum) (ha : a.isNaN = false) (hb : b.isNaN = false) :
    jsLeb (jsMin a b) a = true := by
  unfold jsMin
  rw [ha, hb]
  simp only [Bool.or_self, Bool.false_eq_true, if_false]
  by_cases h : jsLeb a b = true
  · rw [if_pos h]
    exact jsLeb_refl a ha
  · rw [if_neg h]
    exact jsLeb_of_not a b ha hb (Bool.not_eq_true _ ▸ eq_false_of_ne_true h)

theorem jsMin_leb_right (a b : JsNum) (ha : a.isNaN = false) (hb : b.isNaN = false) :
    jsLeb (jsMin a b) b = true := by
  unfold jsMin
  rw [ha, hb]
  simp only [Bool.or_self, Bool.false_eq_true, if_false]
  by_cases h : jsLeb a b = true
  · rw [if_pos h]
    exact h
  · rw [if_neg h]
    exact jsLeb_refl b hb

theorem jsMax_eq_or (a b : JsNum) (ha : a.isNaN = false) (hb : b.isNaN = false) :
    jsMax a b = a ∨ jsMax a b = b := by
  unfold jsMax
  rw [ha, hb]
  simp only [Bool.or_self, Bool.false_eq_true, if_false]
  split
  · exact Or.inr rfl
  · exact Or.inl rfl

theorem jsMax_not_nan (a b : JsNum) (ha : a.isNaN = false) (hb : b.isNaN = false) :
    (jsMax a b).isNaN = false := by
  rcases jsMax_eq_or a b ha hb with h | h <;> rw [h] <;> assumption

theorem jsMax_geb_left (a b : JsNum) (ha : a.isNaN = false) (hb : b.isNaN = false) :
    jsLeb a (jsMax a b) = true := by
  unfold jsMax
  rw [ha, hb]
  simp only [Bool.or_self, Bool.false_eq_true, if_false]
  by_cases h : jsLeb a b = true
  · rw [if_pos h]
    exact h
  · rw [if_neg h]
    exact jsLeb_refl a ha

theorem jsMax_geb_right (a b : JsNum) (ha : a.isNaN = false) (hb : b.isNaN = false) :
    jsLeb b (jsMax a b) = true := by
  unfold jsMax
  rw [ha, hb]
  simp only [Bool.or_self, Bool.false_eq_true, if_false]
  by_cases h : jsLeb a b = true
  · rw [if_pos h]
    exact jsLeb_refl b hb
  · rw [if_neg h]
    exact jsLeb_of_not a b ha hb (Bool.not_eq_true _ ▸ eq_false_of_ne_true h)

theorem foldl_jsMin_mem_cons (l : List JsNum) (acc : JsNum)
    (hacc : acc.isNaN = false) (hl : ∀ v ∈ l, v.isNaN = false) :
    l.foldl jsMin acc ∈ acc :: l := by
  induction l generalizing acc with
  | nil => simp
  | cons x xs ih =>
    have hx : x.isNaN = false := hl x (by simp)
    have hxs : ∀ v ∈ xs, v.isNaN = false := fun v hv => hl v (by simp [hv])
    have h1 := ih (jsMin acc x) (jsMin_not_nan acc x hacc hx) hxs
    rcases List.mem_cons.mp h1 with h2 | h2
    · rcases jsMin_eq_or acc x hacc hx with h3 | h3
      · rw [List.foldl_cons, h2, h3]
        simp
      · rw [List.foldl_cons, h2, h3]
        simp
    · rw [List.foldl_cons]
      exact List.mem_cons_of_mem _ (List.mem_cons_of_mem _ h2)

theorem foldl_jsMin_leb (l : List JsNum) (acc : JsNum)
    (hacc : acc.isNaN = false) (hl : ∀ v ∈ l, v.isNaN = false) :
    jsLeb (l.foldl jsMin acc) acc = true ∧
      ∀ v ∈ l, jsLeb (l.foldl jsMin acc) v = true := by
  induction l generalizing acc with
  | nil => exact ⟨jsLeb_refl acc hacc, by simp⟩
  | cons x xs ih =>
    have hx : x.isNaN = false := hl x (by simp)
    have hxs : ∀ v ∈ xs, v.isNaN = false := fun v hv => hl v (by simp [hv])
    have hmin : (jsMin acc x).isNaN = false := jsMin_not_nan acc x hacc hx
    have h1 := ih (jsMin acc x) hmin hxs
    rw [List.foldl_cons]
    refine ⟨jsLeb_trans _ _ _ h1.1 (jsMin_leb_left acc x hacc hx), ?_⟩
    intro v hv
    rcases List.mem_cons.mp hv with rfl | h2
    · exact jsLeb_trans _ _ _ h1.1 (jsMin_leb_right acc v hacc hx)
    · exact h1.2 v h2

theorem foldl_jsMax_mem_cons (l : List JsNum) (acc : JsNum)
    (hacc : acc.isNaN = false) (hl : ∀ v ∈ l, v.isNaN = false) :
    l.foldl jsMax acc ∈ acc :: l := by
  induction l generalizing acc with
  | nil => simp
  | cons x xs ih =>
    have hx : x.isNaN = false := hl x (by simp)
    have hxs : ∀ v ∈ xs, v.isNaN = false := fun v hv => hl v (by simp [hv])
    have h1 := ih (jsMax acc x) (jsMax_not_nan acc x hacc hx) hxs
    rcases List.mem_cons.mp h1 with h2 | h2
    · rcases jsMax_eq_or acc x hacc hx with h3 | h3
      · rw [List.foldl_cons, h2, h3]
        simp
      · rw [List.foldl_cons, h2, h3]
        simp
    · rw [List.foldl_cons]
      exact List.mem_cons_of_mem _ (List.mem_cons_of_mem _ h2)

theorem foldl_jsMax_geb (l : List JsNum) (acc : JsNum)
    (hacc : acc.isNaN = false) (hl : ∀ v ∈ l, v.isNaN = false) :
    jsLeb acc (l.foldl jsMax acc) = true ∧
      ∀ v ∈ l, jsLeb v (l.foldl jsMax acc) = true := by
  induction l generalizing acc with
  | nil => exact ⟨jsLeb_refl acc hacc, by simp⟩
  | cons x xs ih =>
    have hx : x.isNaN = false := hl x (by simp)
    have hxs : ∀ v ∈ xs, v.isNaN = false := fun v hv => hl v (by simp [hv])
    have hmax : (jsMax acc x).isNaN = false := jsMax_not_nan acc x hacc hx
    have h1 := ih (jsMax acc x) hmax hxs
    rw [List.foldl_cons]
    refine ⟨jsLeb_trans _ _ _ (jsMax_geb_left acc x hacc hx) h1.1, ?_⟩
    intro v hv
    rcases List.mem_cons.mp hv with rfl | h2
    · exact jsLeb_trans _ _ _ (jsMax_geb_right acc v hacc hx) h1.1
    · exact h1.2 v h2

theorem jsMin_inf_left (x : JsNum) (hx : x.isNaN = false) : jsMin JsNum.inf x = x := by
  cases x <;> simp_all [jsMin, jsLeb, JsNum.isNaN]

theorem jsMax_ninf_left (x : JsNum) (hx : x.isNaN = false) : jsMax JsNum.ninf x = x := by
  cases x <;> simp_all [jsMax, jsLeb, JsNum.isNaN]

theorem domainVals_not_nan (t : FeatureTable) : ∀ v ∈ domainVals t, v.isNaN = false := by
  intro v hv
  have h := List.of_mem_filter hv
  simpa using h

theorem mathMin_mem (l : List JsNum) (hne : l ≠ []) (hl : ∀ v ∈ l, v.isNaN = false) :
    mathMin l ∈ l := by
  match l, hne with
  | x :: xs, _ =>
    have hx : x.isNaN = false := hl x (by simp)
    have hxs : ∀ v ∈ xs, v.isNaN = false := fun v hv => hl v (by simp [hv])
    unfold mathMin
    rw [List.foldl_cons, jsMin_inf_left x hx]
    exact foldl_jsMin_mem_cons xs x hx hxs

theorem mathMin_leb (l : List JsNum) (hne : l ≠ []) (hl : ∀ v ∈ l, v.isNaN = false) :
    ∀ v ∈ l, jsLeb (mathMin l) v = true := by
  match l, hne with
  | x :: xs, _ =>
    have hx : x.isNaN = false := hl x (by simp)
    have hxs : ∀ v ∈ xs, v.isNaN = false := fun v hv => hl v (by simp [hv])
    unfold mathMin
    rw [List.foldl_cons, jsMin_inf_left x hx]
    intro v hv
    rcases List.mem_cons.mp hv with rfl | h2
    · exact (foldl_jsMin_leb xs v hx hxs).1
    · exact (foldl_jsMin_leb xs x hx hxs).2 v h2

theorem mathMax_mem (l : List JsNum) (hne : l ≠ []) (hl : ∀ v ∈ l, v.isNaN = false) :
    mathMax l ∈ l := by
  match l, hne with
  | x :: xs, _ =>
    have hx : x.isNaN = false := hl x (by simp)
    have hxs : ∀ v ∈ xs, v.isNaN = false := fun v hv => hl v (by simp [hv])
    unfold mathMax
    rw [List.foldl_cons, jsMax_ninf_left x hx]
    exact foldl_jsMax_mem_cons xs x hx hxs

theorem mathMax_geb (l : List JsNum) (hne : l ≠ []) (hl : ∀ v ∈ l, v.isNaN = false) :
    ∀ v ∈ l, jsLeb v (mathMax l) = true := by
  match l, hne with
  | x :: xs, _ =>
    have hx : x.isNaN = false := hl x (by simp)
    have hxs : ∀ v ∈ xs, v.isNaN = false := fun v hv => hl v (by simp [hv])
    unfold mathMax
    rw [List.foldl_cons, jsMax_ninf_left x hx]
    intro v hv
    rcases List.mem_cons.mp hv with rfl | h2
    · exact (foldl_jsMax_geb xs v hx hxs).1
    · exact (foldl_jsMax_geb xs x hx hxs).2 v h2

theorem objGet_append (l1 l2 : FeatureTable) (k : String) :
    objGet (l1 ++ l2) k = (objGet l2 k).or (objGet l1 k) := by
  induction l1 with
  | nil =>
    cases h : objGet l2 k <;> simp [objGet, Option.or, h]
  | cons p l1 ih =>
    obtain ⟨k1, v⟩ := p
    simp only [List.cons_append, objGet, List.append_eq]
    rw [ih]
    cases h2 : objGet l2 k <;> cases h1 : objGet l1 k <;> simp [Option.or, h2, h1]

theorem objGet_eq_none_iff (l : FeatureTable) (k : String) :
    objGet l k = none ↔ ∀ p ∈ l, p.1 ≠ k := by
  induction l with
  | nil => simp [objGet]
  | cons p l ih =>
    obtain ⟨k1, v⟩ := p
    simp only [objGet, List.mem_cons]
    cases h : objGet l k with
    | some w =>
      simp only [Option.some.injEq]
      constructor
      · intro h2
        exact absurd h2 (by simp)
      · intro h2
        have h3 := ih.mpr (fun q hq => h2 q (Or.inr hq))
        rw [h3] at h
        exact absurd h (by simp)
    | none =>
      rw [ih] at h
      constructor
      · intro h2 q hq
        rcases hq with rfl | hq
        · intro hk
          rw [if_pos hk] at h2
          exact absurd h2 (by simp)
        · exact h q hq
      · intro h2
        rw [if_neg (h2 (k1, v) (Or.inl rfl))]

theorem objGet_cons_ne (p : String × JsNum) (l : FeatureTable) (k : String)
    (h : p.1 ≠ k) : objGet (p :: l) k = objGet l k := by
  obtain ⟨k1, v⟩ := p
  simp only [objGet]
  cases h2 : objGet l k <;> simp [h]

theorem objGet_mem_key (l : FeatureTable) (k : String) (v : JsNum)
    (h : objGet l k = some v) : (k, v) ∈ l := by
  induction l with
  | nil => simp [objGet] at h
  | cons p l ih =>
    obtain ⟨k1, w⟩ := p
    simp only [objGet] at h
    cases h2 : objGet l k with
    | some u =>
      rw [h2] at h
      simp only [Option.some.injEq] at h
      subst h
      exact List.mem_cons_of_mem _ (ih h2)
    | none =>
      rw [h2] at h
      by_cases h3 : k1 = k
      · rw [if_pos h3] at h
        simp only [Option.some.injEq] at h
        subst h3
        subst h
        exact List.mem_cons_self _ _
      · rw [if_neg h3] at h
        exact absurd h (by simp)

theorem buildFeatureTable_map_fst (rows : List (List String)) :
    (buildFeatureTable rows).map Prod.fst = rows.map keyOfRow := by
  simp [buildFeatureTable, List.map_map]

theorem propGet_of_propHas_false (ps : Props) (k : String) (h : propHas ps k = false) :
    propGet ps k = PropVal.pundefined := by
  induction ps with
  | nil => rfl
  | cons p ps ih =>
    unfold propHas at h
    simp only [List.any_cons, Bool.or_eq_false_iff] at h
    unfold propGet
    rw [if_neg (by simpa using h.1)]
    exact ih (by unfold propHas; exact h.2)

theorem propGet_propSet_self (ps : Props) (k : String) (v : PropVal) :
    propGet (propSet ps k v) k = v := by
  induction ps with
  | nil => simp [propSet, propGet]
  | cons p ps ih =>
    obtain ⟨k1, w⟩ := p
    by_cases h : k1 = k
    · simp [propSet, propGet, h]
    · simp only [propSet, h, if_false, if_neg h]
      simp only [propGet]
      rw [if_neg h]
      exact ih

theorem propGet_propSet_ne (ps : Props) (k k1 : String) (v : PropVal) (h : k1 ≠ k) :
    propGet (propSet ps k v) k1 = propGet ps k1 := by
  induction ps with
  | nil =>
    simp only [propSet, propGet]
    rw [if_neg (Ne.symm h)]
  | cons p ps ih =>
    obtain ⟨k2, w⟩ := p
    by_cases h2 : k2 = k
    · subst h2
      simp only [propSet, if_pos rfl]
      simp only [propGet]
      rw [if_neg (Ne.symm h), if_neg (Ne.symm h)]
    · simp only [propSet, if_neg h2]
      simp only [propGet]
      by_cases h3 : k2 = k1
      · rw [if_pos h3, if_pos h3]
      · rw [if_neg h3, if_neg h3]
        exact ih

theorem objRead_some (t : FeatureTable) (k : String) (v : JsNum)
    (h : objGet t k = some v) : objRead t k = JsLookup.num v := by
  simp only [objRead, h]

theorem objRead_none_proto (t : FeatureTable) (k : String)
    (h : objGet t k = none) (hp : k ∈ protoKeys) :
    objRead t k = JsLookup.protoMember k := by
  simp only [objRead, h]
  rw [if_pos hp]

theorem objRead_none_notproto (t : FeatureTable) (k : String)
    (h : objGet t k = none) (hp : k ∉ protoKeys) :
    objRead t k = JsLookup.undef := by
  simp only [objRead, h]
  rw [if_neg hp]

theorem build_objGet_none_iff (rows : List (List String)) (k : String) :
    objGet (buildFeatureTable rows) k = none ↔ ∀ r ∈ rows, keyOfRow r ≠ k := by
  rw [objGet_eq_none_iff]
  constructor
  · intro h r hr
    exact h (keyOfRow r, fieldFloat r) (List.mem_map_of_mem _ hr)
  · intro h p hp
    obtain ⟨r, hr, rfl⟩ := List.mem_map.mp hp
    exact h r hr

theorem scaleSequentialDomain_t0 (I : JsNum → String) (d0 d1 : JsNum) :
    (scaleSequentialDomain I d0 d1).t0 = d0 := rfl

theorem scaleSequentialDomain_interp (I : JsNum → String) (d0 d1 : JsNum) :
    (scaleSequentialDomain I d0 d1).interpolator = I := rfl

theorem k10_fin (I : JsNum → String) (a b : Rat) (hab : a ≠ b) :
    (scaleSequentialDomain I (JsNum.fin a) (JsNum.fin b)).k10 = JsNum.fin ((b - a)⁻¹) := by
  show (if jsStrictEq (JsNum.fin a) (JsNum.fin b) = true then JsNum.fin 0
    else jsDiv (JsNum.fin 1) (jsSub (JsNum.fin b) (JsNum.fin a))) = JsNum.fin ((b - a)⁻¹)
  rw [jsStrictEq_fin, if_neg (by simp [hab])]
  rw [jsSub_fin, jsDiv_fin 1 (b - a) (sub_ne_zero.mpr (Ne.symm hab)), one_div]

theorem k10_fin_degenerate (I : JsNum → String) (a : Rat) :
    (scaleSequentialDomain I (JsNum.fin a) (JsNum.fin a)).k10 = JsNum.fin 0 := by
  show (if jsStrictEq (JsNum.fin a) (JsNum.fin a) = true then JsNum.fin 0
    else jsDiv (JsNum.fin 1) (jsSub (JsNum.fin a) (JsNum.fin a))) = JsNum.fin 0
  rw [jsStrictEq_fin, if_pos (by simp)]

theorem applyScale_fin (I : JsNum → String) (a b x : Rat) (hab : a ≠ b) :
    (scaleSequentialDomain I (JsNum.fin a) (JsNum.fin b)).applyScale (JsNum.fin x)
      = some (I (JsNum.fin ((x - a) * (b - a)⁻¹))) := by
  have hba : b - a ≠ 0 := sub_ne_zero.mpr (Ne.symm hab)
  unfold SeqScale.applyScale
  rw [k10_fin I a b hab, scaleSequentialDomain_t0, scaleSequentialDomain_interp]
  rw [show (JsNum.fin x).isNaN = false from rfl]
  simp only [Bool.false_eq_true, if_false]
  rw [jsStrictEq_fin, if_neg (by simp [inv_ne_zero hba])]
  rw [jsSub_fin, jsMul_fin]

theorem applyScale_fin_degenerate (I : JsNum → String) (a x : Rat) :
    (scaleSequentialDomain I (JsNum.fin a) (JsNum.fin a)).applyScale (JsNum.fin x)
      = some (I (JsNum.fin (mkRat 1 2))) := by
  unfold SeqScale.applyScale
  rw [k10_fin_degenerate I a, scaleSequentialDomain_interp]
  rw [show (JsNum.fin x).isNaN = false from rfl]
  simp only [Bool.false_eq_true, if_false]
  rw [jsStrictEq_fin, if_pos (by simp)]

/-- C2 (amended): over a domain with two distinct finite ends, the sequential
scale maps min to the interpolator at 0 and max to the interpolator at 1, the
inverted scale swaps the two, and the inverted mapping is by construction the
forward mapping over the reversed domain [max, min]; when the two domain ends
coincide (a single finite value in the table), d3 maps every non-NaN input to
the interpolator at 0.5 instead of the ramp ends. -/
theorem colorScale_endpoints (I : JsNum → String) (t : FeatureTable) (a b : Rat)
    (hmin : domainMin t = JsNum.fin a) (hmax : domainMax t = JsNum.fin b) :
    resolveScale I t true = scaleSequentialDomain I (domainMax t) (domainMin t) ∧
    (a < b →
      (resolveScale I t false).applyScale (domainMin t) = some (I (JsNum.fin 0)) ∧
      (resolveScale I t false).applyScale (domainMax t) = some (I (JsNum.fin 1)) ∧
      (resolveScale I t true).applyScale (domainMin t) = some (I (JsNum.fin 1)) ∧
      (resolveScale I t true).applyScale (domainMax t) = some (I (JsNum.fin 0))) ∧
    (a = b →
      (resolveScale I t false).applyScale (domainMin t)
        = some (I (JsNum.fin (mkRat 1 2))) ∧
      (resolveScale I t true).applyScale (domainMin t)
        = some (I (JsNum.fin (mkRat 1 2)))) := by
  refine ⟨rfl, ?_, ?_⟩
  · intro hab
    have hne : a ≠ b := ne_of_lt hab
    have hba : b - a ≠ 0 := sub_ne_zero.mpr (Ne.symm hne)
    have hab2 : a - b ≠ 0 := sub_ne_zero.mpr hne
    unfold resolveScale
    rw [if_neg (by simp), if_pos rfl, hmin, hmax]
    refine ⟨?_, ?_, ?_, ?_⟩
    · rw [applyScale_fin I a b a hne, sub_self, zero_mul]
    · rw [applyScale_fin I a b b hne, mul_inv_cancel₀ hba]
    · rw [applyScale_fin I b a a (Ne.symm hne), mul_inv_cancel₀ hab2]
    · rw [applyScale_fin I b a b (Ne.symm hne), sub_self, zero_mul]
  · intro hab
    subst hab
    unfold resolveScale
    rw [if_neg (by simp), if_pos rfl, hmin, hmax]
    exact ⟨applyScale_fin_degenerate I a a, applyScale_fin_degenerate I a a⟩

/-- C2 counterexample: for the table `{A: 7}` (one finite value, so the claim
as stated applies) and an interpolator separating ramp position 0 from 1/2,
the built mapping sends the domain minimum to the interpolator at 0.5, not to
`scale(0)` - d3's degenerate-domain rule, not the claimed endpoint rule. -/
theorem colorScale_single_value_cex :
    ¬ ((resolveScale demoI [("A", JsNum.fin 7)] false).applyScale
        (domainMin [("A", JsNum.fin 7)]) = some (demoI (JsNum.fin 0))) := by
  decide

theorem colorScale_endpoints_witness :
    domainMin demoTable = JsNum.fin 0 ∧ domainMax demoTable = JsNum.fin 10 ∧
    (0 : Rat) < 10 ∧
    (resolveScale demoI demoTable false).applyScale (domainMin demoTable)
      = some (demoI (JsNum.fin 0)) :=
  ⟨by decide, by decide, by decide,
    ((colorScale_endpoints demoI demoTable 0 10 (by decide) (by decide)).2.1 (by decide)).1⟩

/-- C3 (amended): the Domain Calculator filters the NaN values out and takes
the literal extremes of what remains (on `{1, 5, NaN, 9}`: 1 and 9); when the
filtered list is empty the JS identities of `Math.min`/`Math.max` surface:
the minimum is `+Infinity` and the maximum is `-Infinity` (not NaN). -/
theorem domain_calculator_spec (t : FeatureTable) :
    (∀ v ∈ domainVals t, v.isNaN = false) ∧
    (domainVals t ≠ [] →
      domainMin t ∈ domainVals t ∧ domainMax t ∈ domainVals t ∧
      ∀ v ∈ domainVals t, jsLeb (domainMin t) v = true ∧ jsLeb v (domainMax t) = true) ∧
    (domainVals t = [] → domainMin t = JsNum.inf ∧ domainMax t = JsNum.ninf) ∧
    domainMin [("a", JsNum.fin 1), ("b", JsNum.fin 5), ("c", JsNum.nan), ("d", JsNum.fin 9)]
      = JsNum.fin 1 ∧
    domainMax [("a", JsNum.fin 1), ("b", JsNum.fin 5), ("c", JsNum.nan), ("d", JsNum.fin 9)]
      = JsNum.fin 9 := by
  refine ⟨domainVals_not_nan t, ?_, ?_, by decide, by decide⟩
  · intro hne
    exact ⟨mathMin_mem _ hne (domainVals_not_nan t), mathMax_mem _ hne (domainVals_not_nan t),
      fun v hv => ⟨mathMin_leb _ hne (domainVals_not_nan t) v hv,
        mathMax_geb _ hne (domainVals_not_nan t) v hv⟩⟩
  · intro he
    unfold domainMin domainMax
    rw [he]
    exact ⟨rfl, rfl⟩

/-- C3 counterexample: on an empty (or all-NaN) Feature Table the computed
minimum is `+Infinity` and the maximum `-Infinity`; neither is NaN as the
claim states. -/
theorem domain_empty_not_nan_cex :
    domainMin ([] : FeatureTable) = JsNum.inf ∧
    domainMax ([] : FeatureTable) = JsNum.ninf ∧
    domainMin ([("x", JsNum.nan)] : FeatureTable) = JsNum.inf ∧
    domainMax ([("x", JsNum.nan)] : FeatureTable) = JsNum.ninf ∧
    domainMin ([] : FeatureTable) ≠ JsNum.nan ∧
    domainMax ([] : FeatureTable) ≠ JsNum.nan := by
  decide

theorem domain_calculator_spec_witness :
    domainVals demoTable ≠ [] ∧
    domainMin demoTable ∈ domainVals demoTable ∧
    jsLeb (domainMin demoTable) (JsNum.fin 10) = true :=
  ⟨by decide, ((domain_calculator_spec demoTable).2.1 (by decide)).1,
    (((domain_calculator_spec demoTable).2.1 (by decide)).2.2 (JsNum.fin 10) (by decide)).1⟩

/-- C8: a parsed document whose `type` is not "FeatureCollection" passes
through `assignFeatures` completely unchanged, whatever the table, the
interpolator and the inversion flag. -/
theorem assignFeatures_non_collection_noop (geo : GeoJson) (t : FeatureTable)
    (I : JsNum → String) (inv : Bool) (h : geo.gtype ≠ "FeatureCollection") :
    assignFeatures geo t I inv = geo := by
  unfold assignFeatures
  rw [if_neg]
  simp [isFeatureCollection, h]

theorem assignFeatures_non_collection_noop_witness :
    ({ gtype := "Point", features := [] } : GeoJson).gtype ≠ "FeatureCollection" ∧
    assignFeatures { gtype := "Point", features := [] } demoTable demoI true
      = { gtype := "Point", features := [] } :=
  ⟨by decide, assignFeatures_non_collection_noop _ _ _ _ (by decide)⟩

/-- C9 (amended): enriching with an empty Feature Table leaves the document
unchanged provided no feature's lookup key is an `Object.prototype` property
name (every own-key lookup on the empty table is `undefined`); a feature
whose key IS such a name still gains a `value` - the inherited member - and
an undefined `color`, empty table notwithstanding. -/
theorem assignFeatures_empty_table_id (geo : GeoJson) (I : JsNum → String) (inv : Bool)
    (h : ∀ f ∈ geo.features, lookupIndex f.properties ∉ protoKeys) :
    assignFeatures geo [] I inv = geo ∧
    ∀ f : GeoFeature, lookupIndex f.properties ∈ protoKeys →
      propGet ((enrichFeature (resolveScale I [] inv) [] f).properties.getD []) "value"
        = PropVal.pfun (lookupIndex f.properties) := by
  constructor
  · unfold assignFeatures
    by_cases hfc : isFeatureCollection geo = true
    · rw [if_pos hfc]
      have h2 : ∀ f ∈ geo.features, enrichFeature (resolveScale I [] inv) [] f = f := by
        intro f hf
        have hr := objRead_none_notproto ([] : FeatureTable) _ rfl (h f hf)
        simp only [enrichFeature, hr]
      show ({ gtype := geo.gtype,
              features := geo.features.map (enrichFeature (resolveScale I [] inv) []) } :
          GeoJson) = geo
      rw [List.map_congr_left h2, List.map_id']
    · rw [if_neg hfc]
  · intro f hp
    have hr := objRead_none_proto ([] : FeatureTable) _ rfl hp
    simp only [enrichFeature, hr, Option.getD_some]
    rw [propGet_propSet_ne _ "color" "value" _ (by decide), propGet_propSet_self]

theorem assignFeatures_empty_table_id_witness :
    (∀ f ∈ demoGeo.features, lookupIndex f.properties ∉ protoKeys) ∧
    assignFeatures demoGeo [] demoI false = demoGeo :=
  ⟨by decide, (assignFeatures_empty_table_id demoGeo demoI false (by decide)).1⟩

/-- C9 counterexample: with the empty Feature Table, a feature named
"toString" is still enriched: `features["toString"]` on the empty
`Object.fromEntries` object is the inherited prototype method, the
`undefined` guard does not fire, and the feature gains `value`/`color` keys -
so enriching with the empty table is not the identity. -/
theorem empty_table_not_identity_cex :
    assignFeatures demoProtoGeo [] demoI false ≠ demoProtoGeo ∧
    propGet (((assignFeatures demoProtoGeo [] demoI false).features.headD
        demoFeatureA).properties.getD []) "value" = PropVal.pfun "toString" := by
  decide

/-- C1 (amended): inside a feature collection with a table present, each
feature is processed independently: an own key that yields a value (even NaN)
makes the feature gain `value` = that number and `color` = the scale applied
to it, every other property kept; a key with no entry leaves the feature
exactly as it was only when the key is not an `Object.prototype` property
name - for a prototype name the read is the inherited member, the `undefined`
guard does not fire, and the feature gains `value` = that member and an
undefined `color` (the other properties still kept). -/
theorem enricher_per_feature (geo : GeoJson) (t : FeatureTable) (I : JsNum → String)
    (inv : Bool) (hfc : isFeatureCollection geo = true) (hne : t ≠ []) (i : Nat) :
    (assignFeatures geo t I inv).features.get? i
      = (geo.features.get? i).map (enrichFeature (resolveScale I t inv) t) ∧
    ∀ f : GeoFeature, geo.features.get? i = some f →
      (∀ v : JsNum, objGet t (lookupIndex f.properties) = some v →
        propGet ((enrichFeature (resolveScale I t inv) t f).properties.getD []) "value"
          = PropVal.pnum v ∧
        propGet ((enrichFeature (resolveScale I t inv) t f).properties.getD []) "color"
          = colorToProp ((resolveScale I t inv).applyScale v) ∧
        (∀ k, k ≠ "value" → k ≠ "color" →
          propGet ((enrichFeature (resolveScale I t inv) t f).properties.getD []) k
            = propGet (f.properties.getD []) k) ∧
        (enrichFeature (resolveScale I t inv) t f).ftype = f.ftype ∧
        (enrichFeature (resolveScale I t inv) t f).geometry = f.geometry) ∧
      (objGet t (lookupIndex f.properties) = none →
        (lookupIndex f.properties ∉ protoKeys →
          enrichFeature (resolveScale I t inv) t f = f) ∧
        (lookupIndex f.properties ∈ protoKeys →
          propGet ((enrichFeature (resolveScale I t inv) t f).properties.getD []) "value"
            = PropVal.pfun (lookupIndex f.properties) ∧
          propGet ((enrichFeature (resolveScale I t inv) t f).properties.getD []) "color"
            = PropVal.pundefined ∧
          (∀ k, k ≠ "value" → k ≠ "color" →
            propGet ((enrichFeature (resolveScale I t inv) t f).properties.getD []) k
              = propGet (f.properties.getD []) k))) := by
  constructor
  · unfold assignFeatures
    rw [if_pos hfc]
    show (geo.features.map (enrichFeature (resolveScale I t inv) t)).get? i = _
    rw [List.get?_map]
  · intro f hf
    constructor
    · intro v hv
      have hr := objRead_some t _ v hv
      simp only [enrichFeature, hr, Option.getD_some]
      refine ⟨?_, ?_, ?_, by trivial, by trivial⟩
      · rw [propGet_propSet_ne _ "color" "value" _ (by decide), propGet_propSet_self]
      · rw [propGet_propSet_self]
      · intro k hk1 hk2
        rw [propGet_propSet_ne _ "color" k _ hk2, propGet_propSet_ne _ "value" k _ hk1]
    · intro hv
      constructor
      · intro hp
        have hr := objRead_none_notproto t _ hv hp
        simp only [enrichFeature, hr]
      · intro hp
        have hr := objRead_none_proto t _ hv hp
        simp only [enrichFeature, hr, Option.getD_some]
        refine ⟨?_, ?_, ?_⟩
        · rw [propGet_propSet_ne _ "color" "value" _ (by decide), propGet_propSet_self]
        · rw [propGet_propSet_self]
          rfl
        · intro k hk1 hk2
          rw [propGet_propSet_ne _ "color" k _ hk2, propGet_propSet_ne _ "value" k _ hk1]

theorem enricher_per_feature_witness :
    isFeatureCollection demoGeo = true ∧ demoTable ≠ [] ∧
    propGet ((enrichFeature (resolveScale demoI demoTable false) demoTable
        demoFeatureA).properties.getD []) "value" = PropVal.pnum (JsNum.fin 0) :=
  ⟨by decide, by decide,
    (((enricher_per_feature demoGeo demoTable demoI false (by decide) (by decide) 0).2
      demoFeatureA rfl).1 (JsNum.fin 0) (by decide)).1⟩

/-- C1 counterexample: the key "toString" yields no entry in the Feature
Table, yet the feature is not left unmodified: `features["toString"]` is the
method inherited from `Object.prototype`, the `value === undefined` guard
does not fire, and the feature gains a `value` (that function) and a `color`
key (undefined, the scale's unknown for a non-numeric input). -/
theorem enricher_proto_key_cex :
    objGet demoTable "toString" = none ∧
    propGet (((assignFeatures demoProtoGeo demoTable demoI false).features.headD
        demoFeatureA).properties.getD []) "value" = PropVal.pfun "toString" ∧
    propGet (((assignFeatures demoProtoGeo demoTable demoI false).features.headD
        demoFeatureA).properties.getD []) "color" = PropVal.pundefined := by
  decide

/-- C7 counterexample: a feature having neither `name` nor `code` is still
matched when the Feature Table holds the literal key "undefined": the index
expression evaluates to the JS value `undefined`, property access coerces it
to the string "undefined", and the feature receives a `value` - contradicting
"the feature cannot be matched (it receives no value and no color)". -/
theorem lookup_key_undefined_cex :
    propGet
      (((assignFeatures demoNoKeyGeo [("undefined", JsNum.fin 3)] demoI
          false).features.headD demoFeatureA).properties.getD [])
      "value" = PropVal.pnum (JsNum.fin 3) := by
  decide

/-- C7 (amended): the lookup key is the JS property-key coercion of
`properties?.name || properties?.code` - the `name` value when truthy,
otherwise the `code` value; when neither property exists the index coerces to
the string "undefined", so such a feature is matched exactly when the table
contains that literal key: it stays untouched when the table lacks it, and is
enriched when the table has it. -/
theorem lookup_key_spec (t : FeatureTable) (sc : SeqScale) (f : GeoFeature) :
    (∀ ps, f.properties = some ps →
      (truthy (propGet ps "name") = true →
        lookupIndex f.properties = toKeyString (propGet ps "name")) ∧
      (truthy (propGet ps "name") = false →
        lookupIndex f.properties = toKeyString (propGet ps "code"))) ∧
    (f.properties = none → lookupIndex f.properties = "undefined") ∧
    ((∀ ps, f.properties = some ps → propHas ps "name" = false ∧ propHas ps "code" = false) →
      lookupIndex f.properties = "undefined" ∧
      (objGet t "undefined" = none → enrichFeature sc t f = f) ∧
      (∀ v, objGet t "undefined" = some v →
        propGet ((enrichFeature sc t f).properties.getD []) "value" = PropVal.pnum v)) := by
  refine ⟨?_, ?_, ?_⟩
  · intro ps hps
    constructor
    · intro ht
      simp only [lookupIndex, hps]
      rw [if_pos ht]
    · intro ht
      simp only [lookupIndex, hps]
      rw [if_neg (by simp [ht])]
  · intro h
    simp only [lookupIndex, h]
    rfl
  · intro h
    have hidx : lookupIndex f.properties = "undefined" := by
      cases hp : f.properties with
      | none =>
        simp only [lookupIndex, hp]
        rfl
      | some ps =>
        have h2 := h ps hp
        simp only [lookupIndex, hp, propGet_of_propHas_false ps "name" h2.1,
          propGet_of_propHas_false ps "code" h2.2]
        rfl
    refine ⟨hidx, ?_, ?_⟩
    · intro hv
      have hr := objRead_none_notproto t "undefined" hv (by decide)
      simp only [enrichFeature, hidx, hr]
    · intro v hv
      have hr := objRead_some t "undefined" v hv
      simp only [enrichFeature, hidx, hr, Option.getD_some]
      rw [propGet_propSet_ne _ "color" "value" _ (by decide), propGet_propSet_self]

theorem lookup_key_spec_witness :
    lookupIndex demoFeatureLoose.properties = "undefined" ∧
    enrichFeature (resolveScale demoI demoTable false) demoTable demoFeatureLoose
      = demoFeatureLoose :=
  ⟨((lookup_key_spec demoTable (resolveScale demoI demoTable false) demoFeatureLoose).2.2
      (by
        intro ps hps
        have h2 : some [("other", PropVal.pstr "zz")] = some ps := hps
        injection h2 with h3
        subst h3
        exact ⟨by decide, by decide⟩)).1,
   ((lookup_key_spec demoTable (resolveScale demoI demoTable false) demoFeatureLoose).2.2
      (by
        intro ps hps
        have h2 : some [("other", PropVal.pstr "zz")] = some ps := hps
        injection h2 with h3
        subst h3
        exact ⟨by decide, by decide⟩)).2.1 (by decide)⟩

/-- C10 (amended): the builder only ever stores JS numbers (possibly NaN) -
never undefined or null - and every row's key is mapped to some number; but
because the table object inherits from `Object.prototype`, the enricher's
`value === undefined` test succeeds exactly when the lookup key is absent
from the table's own keys AND is not a prototype property name; an own key -
even one bound to NaN - always leads to enrichment. -/
theorem table_total_lookup (rows : List (List String)) (k : String) :
    (objRead (buildFeatureTable rows) k = JsLookup.undef ↔
      (∀ r ∈ rows, keyOfRow r ≠ k) ∧ k ∉ protoKeys) ∧
    (∀ r ∈ rows, ∃ v : JsNum, objGet (buildFeatureTable rows) (keyOfRow r) = some v) ∧
    (∀ (t2 : FeatureTable) (sc : SeqScale) (f : GeoFeature) (v : JsNum),
      objGet t2 (lookupIndex f.properties) = some v →
      propGet ((enrichFeature sc t2 f).properties.getD []) "value" = PropVal.pnum v) := by
  refine ⟨?_, ?_, ?_⟩
  · cases h : objGet (buildFeatureTable rows) k with
    | some v =>
      rw [objRead_some _ _ _ h]
      constructor
      · intro habs
        exact absurd habs (by simp)
      · rintro ⟨h1, h2⟩
        have h3 := (build_objGet_none_iff rows k).mpr h1
        rw [h3] at h
        exact absurd h (by simp)
    | none =>
      by_cases hp : k ∈ protoKeys
      · rw [objRead_none_proto _ _ h hp]
        constructor
        · intro habs
          exact absurd habs (by simp)
        · rintro ⟨h1, h2⟩
          exact absurd hp h2
      · rw [objRead_none_notproto _ _ h hp]
        constructor
        · intro h4
          exact ⟨(build_objGet_none_iff rows k).mp h, hp⟩
        · intro h4
          rfl
  · intro r hr
    cases h : objGet (buildFeatureTable rows) (keyOfRow r) with
    | some v => exact ⟨v, rfl⟩
    | none =>
      rw [objGet_eq_none_iff] at h
      exact absurd rfl (h (keyOfRow r, fieldFloat r) (List.mem_map_of_mem _ hr))
  · intro t2 sc f v hv
    have hr := objRead_some t2 _ v hv
    simp only [enrichFeature, hr, Option.getD_some]
    rw [propGet_propSet_ne _ "color" "value" _ (by decide), propGet_propSet_self]

/-- C10 counterexample: "toString" is absent from the (empty) table, yet the
read `features["toString"]` is the inherited `Object.prototype.toString`, not
`undefined`; the `value === undefined` guard fails and a feature keyed by it
is enriched - refuting the claimed biconditional "succeeds exactly when the
lookup key is absent from the table". -/
theorem proto_key_lookup_cex :
    objGet ([] : FeatureTable) "toString" = none ∧
    objRead ([] : FeatureTable) "toString" = JsLookup.protoMember "toString" ∧
    propGet ((enrichFeature (resolveScale demoI [] false) []
        demoProtoFeature).properties.getD []) "value" = PropVal.pfun "toString" := by
  decide

theorem table_total_lookup_witness :
    objGet (buildFeatureTable [["A", "x"]]) "A" = some JsNum.nan ∧
    propGet ((enrichFeature (resolveScale demoI [("A", JsNum.nan)] false)
        [("A", JsNum.nan)] demoFeatureA).properties.getD []) "value"
      = PropVal.pnum JsNum.nan :=
  ⟨by decide,
    (table_total_lookup [] "A").2.2 [("A", JsNum.nan)]
      (resolveScale demoI [("A", JsNum.nan)] false) demoFeatureA JsNum.nan (by decide)⟩

theorem build_unique_lookup (rows : List (List String))
    (h : (rows.map keyOfRow).Nodup) :
    ∀ r ∈ rows, objGet (buildFeatureTable rows) (keyOfRow r) = some (fieldFloat r) := by
  induction rows with
  | nil => simp
  | cons r0 rest ih =>
    rw [List.map_cons, List.nodup_cons] at h
    intro r hr
    rcases List.mem_cons.mp hr with rfl | hr2
    · have hnone : objGet (buildFeatureTable rest) (keyOfRow r) = none := by
        rw [objGet_eq_none_iff]
        intro p hp
        obtain ⟨q, hq, rfl⟩ := List.mem_map.mp hp
        intro hc
        exact h.1 (by rw [← hc]; exact List.mem_map_of_mem _ hq)
      show objGet ((keyOfRow r, fieldFloat r) :: buildFeatureTable rest) (keyOfRow r) = _
      simp only [objGet, hnone]
      simp
    · have h5 := ih h.2 r hr2
      show objGet ((keyOfRow r0, fieldFloat r0) :: buildFeatureTable rest) (keyOfRow r) = _
      simp only [objGet, h5]

/-- C4: the Feature Table Builder is per-entry and total: a row contributes
exactly the entry (field 0 verbatim, parseFloat of field 1); a missing field 1
gives the NaN marker; a bad numeric field is confined to that row's key -
replacing the row by any row with the same key changes no other key's lookup;
and every row yields exactly one entry (nothing throws, nothing is dropped). -/
theorem builder_per_entry (pre post : List (List String)) (row newRow : List String)
    (hkey : keyOfRow newRow = keyOfRow row) :
    buildFeatureTable (pre ++ row :: post)
      = buildFeatureTable pre ++ (keyOfRow row, fieldFloat row) :: buildFeatureTable post ∧
    (∀ s rest, row = s :: rest → keyOfRow row = s) ∧
    (row.get? 1 = none → fieldFloat row = JsNum.nan) ∧
    (∀ k, k ≠ keyOfRow row →
      objGet (buildFeatureTable (pre ++ newRow :: post)) k
        = objGet (buildFeatureTable (pre ++ row :: post)) k) ∧
    (buildFeatureTable (pre ++ row :: post)).length = pre.length + post.length + 1 := by
  refine ⟨by simp [buildFeatureTable], ?_, ?_, ?_, ?_⟩
  · intro s rest h
    subst h
    rfl
  · intro h
    have h2 : row[1]? = none := by
      rw [← List.get?_eq_getElem?]
      exact h
    simp [fieldFloat, h2]
  · intro k hk
    have e1 : buildFeatureTable (pre ++ newRow :: post)
        = buildFeatureTable pre
          ++ (keyOfRow newRow, fieldFloat newRow) :: buildFeatureTable post := by
      simp [buildFeatureTable]
    have e2 : buildFeatureTable (pre ++ row :: post)
        = buildFeatureTable pre
          ++ (keyOfRow row, fieldFloat row) :: buildFeatureTable post := by
      simp [buildFeatureTable]
    rw [e1, e2, objGet_append, objGet_append,
      objGet_cons_ne (keyOfRow newRow, fieldFloat newRow) _ k
        (by rw [hkey]; exact Ne.symm hk),
      objGet_cons_ne (keyOfRow row, fieldFloat row) _ k (Ne.symm hk)]
  · simp [buildFeatureTable]
    omega

theorem builder_per_entry_witness :
    keyOfRow ["K", "9"] = keyOfRow ["K", "oops"] ∧
    fieldFloat ["K", "oops"] = JsNum.nan ∧
    fieldFloat ["K"] = JsNum.nan ∧
    objGet (buildFeatureTable [["A", "1"], ["K", "9"], ["B", "2"]]) "B"
      = objGet (buildFeatureTable [["A", "1"], ["K", "oops"], ["B", "2"]]) "B" :=
  ⟨by decide, by decide, by decide,
    (builder_per_entry [["A", "1"]] [["B", "2"]] ["K", "oops"] ["K", "9"]
      (by decide)).2.2.2.1 "B" (by decide)⟩

/-- C5: last write wins - when a later row carries the same key and no row
after it does, the table's entry for the key is that row's parsed value; and
over rows with pairwise distinct keys the table has exactly one entry per row,
each the parsed float of its field 1. -/
theorem table_last_write_wins (pre mid post : List (List String)) (r1 r2 : List String)
    (hk : keyOfRow r1 = keyOfRow r2)
    (hpost : ∀ r ∈ post, keyOfRow r ≠ keyOfRow r2) :
    objGet (buildFeatureTable (pre ++ r1 :: mid ++ r2 :: post)) (keyOfRow r2)
      = some (fieldFloat r2) ∧
    ∀ rows : List (List String), (rows.map keyOfRow).Nodup →
      (objKeys (buildFeatureTable rows)).length = rows.length ∧
      ∀ r ∈ rows, objGet (buildFeatureTable rows) (keyOfRow r) = some (fieldFloat r) := by
  constructor
  · have hnone : objGet (buildFeatureTable post) (keyOfRow r2) = none := by
      rw [objGet_eq_none_iff]
      intro p hp
      obtain ⟨q, hq, rfl⟩ := List.mem_map.mp hp
      exact hpost q hq
    have h2 : objGet ((keyOfRow r2, fieldFloat r2) :: buildFeatureTable post) (keyOfRow r2)
        = some (fieldFloat r2) := by
      simp only [objGet, hnone]
      simp
    have h3 : objGet (buildFeatureTable mid
          ++ (keyOfRow r2, fieldFloat r2) :: buildFeatureTable post) (keyOfRow r2)
        = some (fieldFloat r2) := by
      rw [objGet_append, h2]
      rfl
    have h4 : objGet ((keyOfRow r1, fieldFloat r1)
          :: (buildFeatureTable mid
            ++ (keyOfRow r2, fieldFloat r2) :: buildFeatureTable post)) (keyOfRow r2)
        = some (fieldFloat r2) := by
      simp only [objGet, h3]
    have e1 : buildFeatureTable (pre ++ r1 :: mid ++ r2 :: post)
        = buildFeatureTable pre
          ++ (keyOfRow r1, fieldFloat r1)
            :: (buildFeatureTable mid
              ++ (keyOfRow r2, fieldFloat r2) :: buildFeatureTable post) := by
      simp [buildFeatureTable]
    rw [e1, objGet_append, h4]
    rfl
  · intro rows hnodup
    constructor
    · unfold objKeys
      rw [buildFeatureTable_map_fst, List.dedup_eq_self.mpr hnodup, List.length_map]
    · exact build_unique_lookup rows hnodup

theorem table_last_write_wins_witness :
    keyOfRow ["k", "1"] = keyOfRow ["k", "2"] ∧
    objGet (buildFeatureTable [["k", "1"], ["k", "2"]]) "k" = some (fieldFloat ["k", "2"]) ∧
    fieldFloat ["k", "2"] = JsNum.fin 2 ∧
    (objKeys (buildFeatureTable [["a", "1"], ["b", "2"]])).length = 2 :=
  ⟨by decide,
    (table_last_write_wins [] [] [] ["k", "1"] ["k", "2"] (by decide)
      (by intro r hr; simp at hr)).1,
    by decide,
    ((table_last_write_wins [] [] [] ["x", "1"] ["x", "2"] (by decide)
      (by intro r hr; simp at hr)).2 [["a", "1"], ["b", "2"]] (by decide)).1⟩

/-- C6: a boundary text whose structural parse throws is discarded whole: the
memo returns no geometry and a zero generation marker, records a diagnostic,
and rather than halting the pipeline returns normally - and since the memo is
a pure function of its inputs, any subsequent text that parses again yields
the (possibly enriched) document with a fresh marker. -/
theorem geojson_parse_failure (s : String) (parseGeo : String → Except String GeoJson)
    (feats : Option FeatureTable) (I : JsNum → String) (inv : Bool) (now : Nat)
    (e : String) (hs : s ≠ "") (hfail : parseGeo s = Except.error e) :
    (geojsonMemo s parseGeo feats I inv now).geo = none ∧
    (geojsonMemo s parseGeo feats I inv now).gen = 0 ∧
    (geojsonMemo s parseGeo feats I inv now).diagnostics
      = ["Failed to parse GeoJSON data: " ++ e] ∧
    (∀ (s2 : String) (g : GeoJson), s2 ≠ "" → parseGeo s2 = Except.ok g →
      (geojsonMemo s2 parseGeo feats I inv now).geo
        = some (match feats with
          | some t => assignFeatures g t I inv
          | none => g) ∧
      (geojsonMemo s2 parseGeo feats I inv now).gen = now ∧
      (geojsonMemo s2 parseGeo feats I inv now).diagnostics = []) := by
  refine ⟨?_, ?_, ?_, ?_⟩
  · simp [geojsonMemo, hs, hfail]
  · simp [geojsonMemo, hs, hfail]
  · simp [geojsonMemo, hs, hfail]
  · intro s2 g h2 h3
    cases feats <;> simp [geojsonMemo, h2, h3]

theorem geojson_parse_failure_witness :
    "truncated" ≠ "" ∧ demoParse "truncated" = Except.error "SyntaxError" ∧
    (geojsonMemo "truncated" demoParse (some demoTable) demoI false 5).geo = none ∧
    (geojsonMemo "ok" demoParse (some demoTable) demoI false 5).gen = 5 :=
  ⟨by decide, by simp [demoParse],
    (geojson_parse_failure "truncated" demoParse (some demoTable) demoI false 5
      "SyntaxError" (by decide) (by simp [demoParse])).1,
    ((geojson_parse_failure "truncated" demoParse (some demoTable) demoI false 5
      "SyntaxError" (by decide) (by simp [demoParse])).2.2.2 "ok" demoGeo (by decide)
      (by simp [demoParse])).2.1⟩

example : parseFloat "12.5" = JsNum.fin (mkRat 25 2) := by decide
example : parseFloat "abc" = JsNum.nan := by decide
example : parseFloat "  -3e2" = JsNum.fin (mkRat (-300) 1) := by decide
example : parseFloat "5x" = JsNum.fin (mkRat 5 1) := by decide
example : parseFloat "Infinity" = JsNum.inf := by decide
example : parseFloat "" = JsNum.nan := by decide
example : parseFloat ".5" = JsNum.fin (mkRat 1 2) := by decide
example : parseFloat "7e" = JsNum.fin (mkRat 7 1) := by decide
example : objGet [("a", JsNum.fin 1), ("a", JsNum.fin 2)] "a" = some (JsNum.fin 2) := by decide
example : mathMin [JsNum.fin 5, JsNum.fin 1, JsNum.fin 9] = JsNum.fin 1 := by decide
example : mathMin [] = JsNum.inf := by decide
example :
    (resolveScale demoI demoTable false).applyScale (JsNum.fin 0) = some "start" := by decide
example :
    (resolveScale demoI demoTable false).applyScale (JsNum.fin 10) = some "end" := by decide
example :
    (resolveScale demoI demoTable true).applyScale (JsNum.fin 0) = some "end" := by decide
example : (resolveScale demoI demoTable false).applyScale JsNum.nan = none := by decide
example :
    (resolveScale demoI [("X", JsNum.fin 7)] false).applyScale (JsNum.fin 7)
      = some "mid" := by decide
